import Mathlib

/-!
Shallow embedding of the crypto-signal-tool signal strategy engine.

The embedded code:
- `js/strategies/base.js`: the `SignalMarker` record (`createSignalMarker`),
  the polymorphic strategy contract, and the chart-marker projection
  (`toChartMarker`).
- `js/strategies/feargreed.js`: the `FearGreedStrategy` class
  (`calculate`, `_evaluateIndex`, `_getClassification`, `updateSettings`).
- `js/main.js`: the aggregation pipeline (`_recalculateSignals`,
  `_deduplicateSignals`).

JavaScript numbers that the engine actually computes with are integers
(`parseInt` is applied to every sentiment value and timestamp), so they are
embedded as `Int`.  OHLCV payload fields are carried opaquely as `Float`;
the core never reads them.  `undefined`-able values become `Option`.
-/

namespace CryptoSignal

/-- One OHLCV price bar.  The core reads only `time`, the `YYYY-MM-DD`
date key (`js/strategies/base.js` typedef and §3 of the candle contract). -/
structure Candle where
  time : String
  open_ : Float
  high : Float
  low : Float
  close : Float
  volume : Float

/-- Signal marker record, the shape produced by `createSignalMarker`
in `js/strategies/base.js`. -/
structure SignalMarker where
  time : String
  type : String
  text : String
  reason : String
  strategyId : String
deriving DecidableEq, Repr

/-- Helper `createSignalMarker(time, type, text, reason, strategyId)` from
`js/strategies/base.js`. -/
def createSignalMarker (time type text reason strategyId : String) :
    SignalMarker :=
  ⟨time, type, text, reason, strategyId⟩

/-- One Fear & Greed history entry as consumed by
`FearGreedStrategy.calculate`; the JS code applies `parseInt` to both
fields, so they are embedded as integers. -/
structure FGData where
  timestamp : Int
  value : Int
deriving DecidableEq, Repr

/-- The `extraData` argument of `calculate`:
`{ fearGreedIndex: number | undefined, fearGreedHistory: Array }`
(the JS destructuring defaults the history to `[]`). -/
structure ExtraData where
  fearGreedIndex : Option Int
  fearGreedHistory : List FGData

/-! ### Epoch-seconds to UTC calendar-date key

`feargreed.js` line 39-40 computes
`new Date(timestamp * 1000).toISOString().split('T')[0]`, i.e. the UTC
calendar date of the epoch-second timestamp, zero-padded `YYYY-MM-DD`.
We embed that conversion with the standard civil-from-days algorithm. -/

/-- Zero-pad to two digits (month/day fields of the ISO date key). -/
def pad2 (n : Int) : String :=
  if n < 10 then "0" ++ toString n else toString n

/-- Zero-pad to four digits (year field of the ISO date key). -/
def pad4 (n : Int) : String :=
  if n < 10 then "000" ++ toString n
  else if n < 100 then "00" ++ toString n
  else if n < 1000 then "0" ++ toString n
  else toString n

/-- Gregorian date of a count of days since 1970-01-01 (civil-from-days). -/
def civilFromDays (z0 : Int) : Int × Int × Int :=
  let z := z0 + 719468
  let era := Int.fdiv z 146097
  let doe := z - era * 146097
  let yoe :=
    Int.fdiv (doe - Int.fdiv doe 1460 + Int.fdiv doe 36524 - Int.fdiv doe 146096) 365
  let y := yoe + era * 400
  let doy := doe - (365 * yoe + Int.fdiv yoe 4 - Int.fdiv yoe 100)
  let mp := Int.fdiv (5 * doy + 2) 153
  let d := doy - Int.fdiv (153 * mp + 2) 5 + 1
  let m := if mp < 10 then mp + 3 else mp - 9
  (if m ≤ 2 then y + 1 else y, m, d)

/-- Embeds `new Date(ts * 1000).toISOString().split('T')[0]`: the UTC calendar
date key of an epoch-second timestamp. -/
def epochToDateStr (ts : Int) : String :=
  let days := Int.fdiv ts 86400
  let ymd := civilFromDays days
  pad4 ymd.1 ++ "-" ++ pad2 ymd.2.1 ++ "-" ++ pad2 ymd.2.2

/-! ### FearGreedStrategy (`js/strategies/feargreed.js`) -/

/-- Mutable per-instance state of `FearGreedStrategy`: the base-class
fields `id`, `name`, `enabled` and the two thresholds. -/
structure FearGreedStrategy where
  id : String
  name : String
  enabled : Bool
  buyThreshold : Int
  sellThreshold : Int
deriving DecidableEq, Repr

/-- Constructor `new FearGreedStrategy()`: id `"feargreed"`, display name, enabled by
default (base-class constructor), thresholds 20/80. -/
def FearGreedStrategy.new : FearGreedStrategy :=
  ⟨"feargreed", "Fear & Greed Index", true, 20, 80⟩

/-- Method `_getClassification(index)`: five-bucket classification of the index. -/
def FearGreedStrategy._getClassification (index : Int) : String :=
  if index ≤ 20 then "Extreme Fear"
  else if index ≤ 40 then "Fear"
  else if index ≤ 60 then "Neutral"
  else if index ≤ 80 then "Greed"
  else "Extreme Greed"

/-- Method `_evaluateIndex(index, time)`: buy marker when `index ≤ buyThreshold`,
else sell marker when `index ≥ sellThreshold`, else `null`. -/
def FearGreedStrategy._evaluateIndex (s : FearGreedStrategy) (index : Int)
    (time : String) : Option SignalMarker :=
  if index ≤ s.buyThreshold then
    some (createSignalMarker time "buy" ("FG:" ++ toString index)
      (FearGreedStrategy._getClassification index) s.id)
  else if index ≥ s.sellThreshold then
    some (createSignalMarker time "sell" ("FG:" ++ toString index)
      (FearGreedStrategy._getClassification index) s.id)
  else none

/-- Method `calculate(candles, extraData)` of `FearGreedStrategy`.  The JS
builds a `Map` keyed by candle `time` and uses it only for membership
(`candleMap.has`), embedded as membership in the list of candle times;
the `forEach`/`push` loop is embedded as a left fold appending emitted
markers. -/
def FearGreedStrategy.calculate (s : FearGreedStrategy)
    (candles : List Candle) (extraData : ExtraData) : List SignalMarker :=
  if s.enabled = false then []
  else
    let fearGreedHistory := extraData.fearGreedHistory
    if fearGreedHistory.length > 0 ∧ candles.length > 0 then
      let candleTimes := candles.map Candle.time
      fearGreedHistory.foldl (fun signals fgData =>
        let dateStr := epochToDateStr fgData.timestamp
        if candleTimes.contains dateStr then
          match s._evaluateIndex fgData.value dateStr with
          | some signal => signals ++ [signal]
          | none => signals
        else signals) []
    else
      match extraData.fearGreedIndex, candles.getLast? with
      | some fearGreedIndex, some latestCandle =>
          (s._evaluateIndex fearGreedIndex latestCandle.time).toList
      | _, _ => []

/-- The `settings` argument of `updateSettings`: each field may be absent. -/
structure Settings where
  buyThreshold : Option Int
  sellThreshold : Option Int

/-- Method `updateSettings(settings)`: each supplied threshold is clamped with
`Math.max(0, Math.min(100, v))`; absent fields are left unchanged. -/
def FearGreedStrategy.updateSettings (s : FearGreedStrategy)
    (settings : Settings) : FearGreedStrategy :=
  let s1 :=
    match settings.buyThreshold with
    | some v => { s with buyThreshold := max 0 (min 100 v) }
    | none => s
  match settings.sellThreshold with
  | some v => { s1 with sellThreshold := max 0 (min 100 v) }
  | none => s1

/-- Method `getSettings()`: snapshot of the two thresholds. -/
def FearGreedStrategy.getSettings (s : FearGreedStrategy) : Int × Int :=
  (s.buyThreshold, s.sellThreshold)

/-- Method `setEnabled(enabled)` from the base class (`js/strategies/base.js`). -/
def FearGreedStrategy.setEnabled (s : FearGreedStrategy) (b : Bool) :
    FearGreedStrategy :=
  { s with enabled := b }

/-! ### Chart marker projection (`toChartMarker`, `js/strategies/base.js`) -/

/-- Visual marker descriptor consumed by the charting layer. -/
structure ChartMarker where
  time : String
  position : String
  color : String
  shape : String
  text : String
deriving DecidableEq, Repr

/-- Function `toChartMarker(signal)`: buy markers go below the bar, green, arrow up;
everything else above the bar, red, arrow down.  `signal.text || 'Buy'`
falls back to the default label exactly when `text` is the empty string
(the only falsy string). -/
def toChartMarker (signal : SignalMarker) : ChartMarker :=
  if signal.type = "buy" then
    ⟨signal.time, "belowBar", "#00d26a", "arrowUp",
      if signal.text = "" then "Buy" else signal.text⟩
  else
    ⟨signal.time, "aboveBar", "#ff6b6b", "arrowDown",
      if signal.text = "" then "Sell" else signal.text⟩

/-! ### Aggregation pipeline (`js/main.js`) -/

/-- The polymorphic strategy contract of `js/strategies/base.js` as seen
by the aggregator: an `isEnabled()` flag and a `calculate` capability. -/
structure Strategy where
  isEnabled : Bool
  calculate : List Candle → ExtraData → List SignalMarker

/-- View of a `FearGreedStrategy` through the base-class contract
(`isEnabled()` returns `this.enabled`). -/
def FearGreedStrategy.toStrategy (s : FearGreedStrategy) : Strategy :=
  ⟨s.enabled, s.calculate⟩

/-- The collection loop of `_recalculateSignals` (`js/main.js` 226-234):
iterate strategies in registration order, appending each enabled
strategy's `calculate` output (`allSignals.push(...signals)`). -/
def collectSignals (strategies : List Strategy) (candles : List Candle)
    (extraData : ExtraData) : List SignalMarker :=
  strategies.foldl (fun allSignals strategy =>
    if strategy.isEnabled then allSignals ++ strategy.calculate candles extraData
    else allSignals) []

/-- The deduplication key ``` `${signal.time}-${signal.type}` ``` of
`_deduplicateSignals`. -/
def signalKey (signal : SignalMarker) : String :=
  signal.time ++ "-" ++ signal.type

/-- One step of the `seen`-map construction in `_deduplicateSignals`:
a JS `Map` keeps the first value inserted for a key, and `Map.values()`
iterates in insertion order. -/
def dedupStep (seen : List SignalMarker) (signal : SignalMarker) :
    List SignalMarker :=
  if seen.any (fun t => signalKey t == signalKey signal) then seen
  else seen ++ [signal]

/-- Lexicographic code-point comparison of character lists,
`l₁ ≤ l₂` as a boolean. -/
def charListLe : List Char → List Char → Bool
  | [], _ => true
  | _ :: _, [] => false
  | a :: as, b :: bs =>
      if a < b then true else if b < a then false else charListLe as bs

/-- Embeds `a.localeCompare(b) ≤ 0`; on the engine's code-point date-key strings
`localeCompare` agrees with lexicographic code-point comparison. -/
def strLe (a b : String) : Bool :=
  charListLe a.data b.data

/-- The comparator `(a, b) => b.time.localeCompare(a.time)` of
`_deduplicateSignals` as the relation "`a` may come before `b`":
time descending. -/
def timeDesc (a b : SignalMarker) : Prop :=
  strLe b.time a.time = true

instance : DecidableRel timeDesc := fun a b =>
  inferInstanceAs (Decidable (strLe b.time a.time = true))

/-- Method `_deduplicateSignals(signals)` (`js/main.js` 252-264): keep the first
marker per `time-type` key in iteration order, then stable-sort the kept
markers by `time` descending (JS `Array.prototype.sort` is stable,
embedded as stable insertion sort). -/
def _deduplicateSignals (signals : List SignalMarker) : List SignalMarker :=
  List.insertionSort timeDesc (signals.foldl dedupStep [])

/-- Method `_recalculateSignals` (`js/main.js` 216-247), restricted to its
computational content: `none` embeds the early `return` on an empty
candle set (no output, prior state untouched); otherwise the collected
signals are deduplicated and become the new canonical timeline. -/
def _recalculateSignals (strategies : List Strategy) (candles : List Candle)
    (extraData : ExtraData) : Option (List SignalMarker) :=
  if candles.isEmpty then none
  else some (_deduplicateSignals (collectSignals strategies candles extraData))

/-- The candle series of the spec's historical back-fill test case:
dates 2024-01-01 .. 2024-01-03. -/
def exampleCandles : List Candle :=
  [⟨"2024-01-01", 0, 0, 0, 0, 0⟩, ⟨"2024-01-02", 0, 0, 0, 0, 0⟩,
   ⟨"2024-01-03", 0, 0, 0, 0, 0⟩]

/-- The sentiment history of the spec's historical back-fill test case:
epoch 1704067200 is 2024-01-01T00:00Z, epoch 1704412800 is
2024-01-05T00:00Z (no matching candle). -/
def exampleHistory : List FGData :=
  [⟨1704067200, 10⟩, ⟨1704412800, 90⟩]

/-- Two-strategy aggregation fixture: the strategies collide on the
`(2024-01-01, buy)` key; the earlier-registered strategy's marker (text
`"a"`) must win. -/
def wStrategies : List Strategy :=
  [⟨true, fun _ _ =>
      [⟨"2024-01-01", "buy", "a", "r", "s1"⟩,
       ⟨"2024-03-01", "sell", "b", "r", "s1"⟩]⟩,
   ⟨true, fun _ _ => [⟨"2024-01-01", "buy", "c", "r", "s2"⟩]⟩]

/-- Single-candle series for the aggregation fixture. -/
def wCandles : List Candle :=
  [⟨"2024-01-01", 0, 0, 0, 0, 0⟩]

/-- Empty sentiment payload for the aggregation fixture. -/
def wExtra : ExtraData :=
  ⟨none, []⟩

/-! ## Supporting lemmas -/

/-- The comparison `charListLe` decides the negation of the core lexicographic `List.lt`. -/
theorem charListLe_iff :
    ∀ l₁ l₂ : List Char, charListLe l₁ l₂ = true ↔ ¬List.lt l₂ l₁
  | [], l₂ => by
      simp only [charListLe, true_iff]
      intro h
      cases h
  | a :: as, [] => by
      simp only [charListLe, Bool.false_eq_true, false_iff, not_not]
      exact .nil a as
  | a :: as, b :: bs => by
      simp only [charListLe]
      by_cases hab : a < b
      · simp only [if_pos hab, true_iff]
        intro h
        cases h with
        | head _ _ h' => exact absurd hab (lt_asymm h')
        | tail h1 h2 _ => exact h2 hab
      · by_cases hba : b < a
        · simp only [if_neg hab, if_pos hba, Bool.false_eq_true, false_iff,
            not_not]
          exact .head bs as hba
        · simp only [if_neg hab, if_neg hba, charListLe_iff as bs]
          constructor
          · intro h hlt
            cases hlt with
            | head _ _ h' => exact hba h'
            | tail _ _ h' => exact h h'
          · intro h hlt
            exact h (.tail hba hab hlt)

/-- The comparator `strLe` decides the library order on strings. -/
theorem strLe_le_iff (a b : String) : strLe a b = true ↔ a ≤ b := by
  have h : a ≤ b ↔ ¬List.lt b.data a.data := by
    constructor
    · intro h' hlt
      exact h' (String.lt_iff_toList_lt.mpr ((List.lt_iff_lex_lt _ _).mp hlt))
    · intro h' hlt
      exact h' ((List.lt_iff_lex_lt _ _).mpr (String.lt_iff_toList_lt.mp hlt))
  rw [h]
  exact charListLe_iff a.data b.data

/-- Totality of `timeDesc`. -/
theorem timeDesc_total : ∀ a b : SignalMarker, timeDesc a b ∨ timeDesc b a := by
  intro a b
  simp only [timeDesc, strLe_le_iff]
  exact le_total b.time a.time

/-- Transitivity of `timeDesc`. -/
theorem timeDesc_trans :
    ∀ a b c : SignalMarker, timeDesc a b → timeDesc b c → timeDesc a c := by
  intro a b c h1 h2
  simp only [timeDesc, strLe_le_iff] at *
  exact le_trans h2 h1

/-! ## Claim theorems -/

/-- C5: for every integer value in 0..100 the classification function
assigns exactly one of the five buckets, with boundaries inclusive on the
lower bucket: `≤20 → "Extreme Fear"`, `21..40 → "Fear"`,
`41..60 → "Neutral"`, `61..80 → "Greed"`, `81..100 → "Extreme Greed"`;
in particular 40 maps to `"Fear"` and 41 to `"Neutral"`. -/
theorem getClassification_partition (v : Int) (h0 : 0 ≤ v) (h1 : v ≤ 100) :
    (FearGreedStrategy._getClassification v = "Extreme Fear" ∨
      FearGreedStrategy._getClassification v = "Fear" ∨
      FearGreedStrategy._getClassification v = "Neutral" ∨
      FearGreedStrategy._getClassification v = "Greed" ∨
      FearGreedStrategy._getClassification v = "Extreme Greed") ∧
    (FearGreedStrategy._getClassification v = "Extreme Fear" ↔ v ≤ 20) ∧
    (FearGreedStrategy._getClassification v = "Fear" ↔ 21 ≤ v ∧ v ≤ 40) ∧
    (FearGreedStrategy._getClassification v = "Neutral" ↔ 41 ≤ v ∧ v ≤ 60) ∧
    (FearGreedStrategy._getClassification v = "Greed" ↔ 61 ≤ v ∧ v ≤ 80) ∧
    (FearGreedStrategy._getClassification v = "Extreme Greed" ↔
      81 ≤ v ∧ v ≤ 100) ∧
    FearGreedStrategy._getClassification 40 = "Fear" ∧
    FearGreedStrategy._getClassification 41 = "Neutral" := by
  refine ⟨?_, ?_, ?_, ?_, ?_, ?_, by decide, by decide⟩ <;>
    unfold FearGreedStrategy._getClassification <;>
    split_ifs <;> simp_all <;> omega

/-- Concrete instantiation of `getClassification_partition` at 40. -/
theorem getClassification_partition_witness :
    FearGreedStrategy._getClassification 40 = "Fear" ↔
      21 ≤ (40 : Int) ∧ (40 : Int) ≤ 40 :=
  (getClassification_partition 40 (by decide) (by decide)).2.2.1

/-- C6: a disabled sentiment strategy's `calculate` returns the empty
sequence immediately for any input, and such a strategy contributes zero
markers through the aggregator's collection loop. -/
theorem calculate_disabled (s : FearGreedStrategy) (candles : List Candle)
    (extraData : ExtraData) (h : s.enabled = false) :
    s.calculate candles extraData = [] ∧
    collectSignals [s.toStrategy] candles extraData = [] := by
  constructor
  · unfold FearGreedStrategy.calculate
    simp [h]
  · unfold collectSignals FearGreedStrategy.toStrategy
    simp [h]

/-- Concrete instantiation of `calculate_disabled`: a freshly constructed
strategy switched off via `setEnabled(false)`, fed both a live value and
a history. -/
theorem calculate_disabled_witness :
    (FearGreedStrategy.new.setEnabled false).calculate
        [⟨"2024-01-01", 1, 2, 0, 1, 3⟩] ⟨some 5, [⟨1704067200, 90⟩]⟩ = [] ∧
    collectSignals [(FearGreedStrategy.new.setEnabled false).toStrategy]
        [⟨"2024-01-01", 1, 2, 0, 1, 3⟩] ⟨some 5, [⟨1704067200, 90⟩]⟩ = [] :=
  calculate_disabled _ _ _ (by decide)

/-- C7: `updateSettings` clamps each supplied threshold into [0,100] via
`max 0 (min 100 v)`, leaves an absent threshold at its previous value,
leaves `id`/`name`/`enabled` unchanged, and consequently thresholds that
were in [0,100] remain so after any update. -/
theorem updateSettings_spec (s : FearGreedStrategy) (st : Settings) :
    ((s.updateSettings st).buyThreshold =
      match st.buyThreshold with
      | some v => max 0 (min 100 v)
      | none => s.buyThreshold) ∧
    ((s.updateSettings st).sellThreshold =
      match st.sellThreshold with
      | some v => max 0 (min 100 v)
      | none => s.sellThreshold) ∧
    (s.updateSettings st).id = s.id ∧
    (s.updateSettings st).name = s.name ∧
    (s.updateSettings st).enabled = s.enabled ∧
    (0 ≤ s.buyThreshold → s.buyThreshold ≤ 100 →
      0 ≤ (s.updateSettings st).buyThreshold ∧
        (s.updateSettings st).buyThreshold ≤ 100) ∧
    (0 ≤ s.sellThreshold → s.sellThreshold ≤ 100 →
      0 ≤ (s.updateSettings st).sellThreshold ∧
        (s.updateSettings st).sellThreshold ≤ 100) := by
  obtain ⟨bt, sl⟩ := st
  cases bt <;> cases sl <;>
    simp [FearGreedStrategy.updateSettings] <;> omega

/-- Concrete instantiation of `updateSettings_spec`: an out-of-range
buy threshold of 150 is clamped to 100 and the sell threshold is left
unchanged. -/
theorem updateSettings_spec_witness :
    (FearGreedStrategy.new.updateSettings ⟨some 150, none⟩).buyThreshold = 100 ∧
    (FearGreedStrategy.new.updateSettings ⟨some 150, none⟩).sellThreshold = 80 := by
  have h := updateSettings_spec FearGreedStrategy.new ⟨some 150, none⟩
  exact ⟨by simpa using h.1, by simpa using h.2.1⟩

/-- C8: `toChartMarker` preserves `time`; a buy marker projects to
below-bar/green/up-arrow and a sell marker to above-bar/red/down-arrow,
with the label falling back to `"Buy"`/`"Sell"` exactly when `text` is
empty. -/
theorem toChartMarker_spec (signal : SignalMarker) :
    (toChartMarker signal).time = signal.time ∧
    (signal.type = "buy" →
      toChartMarker signal =
        ⟨signal.time, "belowBar", "#00d26a", "arrowUp",
          if signal.text = "" then "Buy" else signal.text⟩) ∧
    (signal.type = "sell" →
      toChartMarker signal =
        ⟨signal.time, "aboveBar", "#ff6b6b", "arrowDown",
          if signal.text = "" then "Sell" else signal.text⟩) := by
  refine ⟨?_, ?_, ?_⟩
  · unfold toChartMarker
    split <;> rfl
  · intro h
    simp [toChartMarker, h]
  · intro h
    simp [toChartMarker, h]

/-- Concrete instantiation of `toChartMarker_spec`: a buy marker with
empty `text` gets the default `"Buy"` label. -/
theorem toChartMarker_spec_witness :
    toChartMarker ⟨"2024-01-01", "buy", "", "r", "feargreed"⟩ =
      ⟨"2024-01-01", "belowBar", "#00d26a", "arrowUp", "Buy"⟩ := by
  simpa using
    (toChartMarker_spec ⟨"2024-01-01", "buy", "", "r", "feargreed"⟩).2.1 rfl

/-- A reachable strategy state with inverted thresholds
(`updateSettings({buyThreshold: 90, sellThreshold: 10})`). -/
def invertedStrategy : FearGreedStrategy :=
  FearGreedStrategy.new.updateSettings ⟨some 90, some 10⟩

/-- C1 counterexample: with the reachable thresholds 90/10 and value 50,
the value is `≥ sellThreshold` yet `_evaluateIndex` returns a buy marker,
not a sell marker — the claim's unconditional "value ≥ sellThreshold ⇒
sell marker" fails. -/
theorem evaluateIndex_sell_clause_cex :
    invertedStrategy.sellThreshold ≤ 50 ∧
    (invertedStrategy._evaluateIndex 50 "2024-01-02").map SignalMarker.type =
      some "buy" ∧
    ("buy" : String) ≠ "sell" := by
  decide

/-- C1 (amended): `_evaluateIndex` returns a buy marker whenever
`value ≤ buyThreshold`; a sell marker whenever `value ≥ sellThreshold`
**and the buy predicate does not hold**; and no marker otherwise.  With
the default thresholds 20/80: value 20 → buy marker, 21 → no marker,
80 → sell marker, 79 → no marker. -/
theorem evaluateIndex_thresholds (s : FearGreedStrategy) (v : Int)
    (t : String) :
    (v ≤ s.buyThreshold →
      ∃ m, s._evaluateIndex v t = some m ∧ m.type = "buy") ∧
    (s.buyThreshold < v → s.sellThreshold ≤ v →
      ∃ m, s._evaluateIndex v t = some m ∧ m.type = "sell") ∧
    (s.buyThreshold < v → v < s.sellThreshold →
      s._evaluateIndex v t = none) ∧
    (∃ m, FearGreedStrategy.new._evaluateIndex 20 t = some m ∧
      m.type = "buy") ∧
    FearGreedStrategy.new._evaluateIndex 21 t = none ∧
    (∃ m, FearGreedStrategy.new._evaluateIndex 80 t = some m ∧
      m.type = "sell") ∧
    FearGreedStrategy.new._evaluateIndex 79 t = none := by
  refine ⟨?_, ?_, ?_, ?_, ?_, ?_, ?_⟩
  · intro hb
    have he : s._evaluateIndex v t =
        some (createSignalMarker t "buy" ("FG:" ++ toString v)
          (FearGreedStrategy._getClassification v) s.id) := by
      rw [FearGreedStrategy._evaluateIndex, if_pos hb]
    exact ⟨_, he, rfl⟩
  · intro hb hs
    have he : s._evaluateIndex v t =
        some (createSignalMarker t "sell" ("FG:" ++ toString v)
          (FearGreedStrategy._getClassification v) s.id) := by
      rw [FearGreedStrategy._evaluateIndex, if_neg (by omega), if_pos hs]
    exact ⟨_, he, rfl⟩
  · intro hb hs
    rw [FearGreedStrategy._evaluateIndex, if_neg (by omega),
      if_neg (by omega)]
  · have he : FearGreedStrategy.new._evaluateIndex 20 t =
        some (createSignalMarker t "buy" ("FG:" ++ toString (20 : Int))
          (FearGreedStrategy._getClassification 20)
          FearGreedStrategy.new.id) := by
      rw [FearGreedStrategy._evaluateIndex, if_pos (by decide)]
    exact ⟨_, he, rfl⟩
  · rw [FearGreedStrategy._evaluateIndex, if_neg (by decide),
      if_neg (by decide)]
  · have he : FearGreedStrategy.new._evaluateIndex 80 t =
        some (createSignalMarker t "sell" ("FG:" ++ toString (80 : Int))
          (FearGreedStrategy._getClassification 80)
          FearGreedStrategy.new.id) := by
      rw [FearGreedStrategy._evaluateIndex, if_neg (by decide),
        if_pos (by decide)]
    exact ⟨_, he, rfl⟩
  · rw [FearGreedStrategy._evaluateIndex, if_neg (by decide),
      if_neg (by decide)]

/-- Concrete instantiation of `evaluateIndex_thresholds`: the default
strategy at value 5 yields a buy marker. -/
theorem evaluateIndex_thresholds_witness :
    ∃ m, FearGreedStrategy.new._evaluateIndex 5 "2024-01-01" = some m ∧
      m.type = "buy" :=
  (evaluateIndex_thresholds FearGreedStrategy.new 5 "2024-01-01").1
    (by decide)

/-- C9: when value ≤ buyThreshold and value ≥ sellThreshold hold
simultaneously (possible when buyThreshold ≥ sellThreshold), the buy
branch takes precedence: the single returned marker is a buy marker and
not a sell marker. -/
theorem evaluateIndex_buy_precedence (s : FearGreedStrategy) (v : Int)
    (t : String) (hbuy : v ≤ s.buyThreshold) (_hsell : s.sellThreshold ≤ v) :
    ∃ m, s._evaluateIndex v t = some m ∧ m.type = "buy" ∧
      m.type ≠ "sell" ∧
      ∀ m', s._evaluateIndex v t = some m' → m' = m := by
  have he : s._evaluateIndex v t =
      some (createSignalMarker t "buy" ("FG:" ++ toString v)
        (FearGreedStrategy._getClassification v) s.id) := by
    rw [FearGreedStrategy._evaluateIndex, if_pos hbuy]
  refine ⟨_, he, rfl, by show ("buy" : String) ≠ "sell"; decide, ?_⟩
  intro m' hm'
  rw [he] at hm'
  exact (Option.some.injEq _ _ ▸ hm').symm

/-- Concrete instantiation of `evaluateIndex_buy_precedence` at the
reachable inverted thresholds 90/10 and value 50, where both predicates
hold. -/
theorem evaluateIndex_buy_precedence_witness :
    ∃ m, invertedStrategy._evaluateIndex 50 "2024-01-02" = some m ∧
      m.type = "buy" ∧ m.type ≠ "sell" ∧
      ∀ m', invertedStrategy._evaluateIndex 50 "2024-01-02" = some m' →
        m' = m :=
  evaluateIndex_buy_precedence invertedStrategy 50 "2024-01-02"
    (by decide) (by decide)

/-- Shape of any marker produced by `_evaluateIndex`: it carries the
given time, a `"buy"`/`"sell"` type, and the strategy's id. -/
theorem evaluateIndex_marker {s : FearGreedStrategy} {v : Int} {t : String}
    {m : SignalMarker} (h : s._evaluateIndex v t = some m) :
    m.time = t ∧ (m.type = "buy" ∨ m.type = "sell") ∧
      m.strategyId = s.id := by
  rw [FearGreedStrategy._evaluateIndex] at h
  split at h
  · cases Option.some.inj h
    exact ⟨rfl, Or.inl rfl, rfl⟩
  · split at h
    · cases Option.some.inj h
      exact ⟨rfl, Or.inr rfl, rfl⟩
    · exact Option.noConfusion h

/-- The `forEach`/`push` loop of historical mode is a `filterMap`. -/
theorem calc_hist_foldl (s : FearGreedStrategy) (candleTimes : List String) :
    ∀ (l : List FGData) (acc : List SignalMarker),
      (l.foldl (fun signals fgData =>
          let dateStr := epochToDateStr fgData.timestamp
          if candleTimes.contains dateStr then
            match s._evaluateIndex fgData.value dateStr with
            | some signal => signals ++ [signal]
            | none => signals
          else signals) acc)
        = acc ++ l.filterMap (fun fgData =>
            let dateStr := epochToDateStr fgData.timestamp
            if candleTimes.contains dateStr then
              s._evaluateIndex fgData.value dateStr
            else none)
  | [], acc => by simp
  | fgData :: l, acc => by
      rw [List.foldl_cons, List.filterMap_cons]
      by_cases hct : candleTimes.contains (epochToDateStr fgData.timestamp) =
          true
      · cases he : s._evaluateIndex fgData.value
            (epochToDateStr fgData.timestamp) with
        | none =>
            simp only [hct, if_true, he]
            rw [calc_hist_foldl s candleTimes l acc]
        | some sig =>
            simp only [hct, if_true, he]
            rw [calc_hist_foldl s candleTimes l (acc ++ [sig])]
            simp
      · simp only [Bool.not_eq_true] at hct
        simp only [hct, Bool.false_eq_true, if_false]
        rw [calc_hist_foldl s candleTimes l acc]

/-- Historical-mode unfolding of `calculate`: with the strategy enabled,
a non-empty history and non-empty candles, the output is the `filterMap`
over the history that keeps threshold-crossing points whose date key
matches a candle. -/
theorem calc_hist_eq (s : FearGreedStrategy) (candles : List Candle)
    (idx : Option Int) (hist : List FGData) (hen : s.enabled = true)
    (hh : 0 < hist.length) (hc : 0 < candles.length) :
    s.calculate candles ⟨idx, hist⟩ =
      hist.filterMap (fun fgData =>
        let dateStr := epochToDateStr fgData.timestamp
        if (candles.map Candle.time).contains dateStr then
          s._evaluateIndex fgData.value dateStr
        else none) := by
  unfold FearGreedStrategy.calculate
  rw [hen]
  rw [if_neg (by simp)]
  rw [if_pos ⟨hh, hc⟩]
  exact calc_hist_foldl s (candles.map Candle.time) hist []

/-- Live-mode unfolding of `calculate`: when historical mode's
precondition fails, the result is determined by the scalar index and the
last candle. -/
theorem calc_live_eq (s : FearGreedStrategy) (candles : List Candle)
    (extraData : ExtraData) (hen : s.enabled = true)
    (hnot : ¬(0 < extraData.fearGreedHistory.length ∧ 0 < candles.length)) :
    s.calculate candles extraData =
      match extraData.fearGreedIndex, candles.getLast? with
      | some v, some c => (s._evaluateIndex v c.time).toList
      | _, _ => [] := by
  unfold FearGreedStrategy.calculate
  rw [hen]
  rw [if_neg (by simp)]
  rw [if_neg hnot]

/-- C3: in historical mode (enabled strategy, non-empty history, non-empty
candles) `calculate` emits, in history order, exactly the markers of
history points whose UTC date key matches a candle and whose value crosses
a threshold, silently skipping unmatched points; on the spec's concrete
test data the result is exactly one buy marker at 2024-01-01. -/
theorem calculate_historical_mode (s : FearGreedStrategy)
    (candles : List Candle) (idx : Option Int) (hist : List FGData)
    (hen : s.enabled = true) (hh : hist ≠ []) (hc : candles ≠ []) :
    s.calculate candles ⟨idx, hist⟩ =
      hist.filterMap (fun fgData =>
        let dateStr := epochToDateStr fgData.timestamp
        if (candles.map Candle.time).contains dateStr then
          s._evaluateIndex fgData.value dateStr
        else none) ∧
    FearGreedStrategy.new.calculate exampleCandles ⟨none, exampleHistory⟩ =
      [⟨"2024-01-01", "buy", "FG:10", "Extreme Fear", "feargreed"⟩] :=
  ⟨calc_hist_eq s candles idx hist hen (List.length_pos.mpr hh)
      (List.length_pos.mpr hc),
    by decide⟩

/-- Concrete instantiation of `calculate_historical_mode`: the spec's
back-fill test case. -/
theorem calculate_historical_mode_witness :
    FearGreedStrategy.new.calculate exampleCandles ⟨none, exampleHistory⟩ =
      [⟨"2024-01-01", "buy", "FG:10", "Extreme Fear", "feargreed"⟩] :=
  (calculate_historical_mode FearGreedStrategy.new exampleCandles none
    exampleHistory rfl (by simp [exampleHistory]) (by simp [exampleCandles])).2

/-- C4: with an empty history, a scalar sentiment value and non-empty
candles, `calculate` emits at most one marker, attached to the last
candle's date key, exactly when the value crosses a threshold; and when
neither mode's precondition holds it returns the empty sequence. -/
theorem calculate_live_mode (s : FearGreedStrategy) (hen : s.enabled = true) :
    (∀ (candles : List Candle) (v : Int) (hc : candles ≠ []),
      s.calculate candles ⟨some v, []⟩ =
          (s._evaluateIndex v ((candles.getLast hc).time)).toList ∧
        (s.calculate candles ⟨some v, []⟩).length ≤ 1 ∧
        (s.calculate candles ⟨some v, []⟩ ≠ [] ↔
          v ≤ s.buyThreshold ∨ s.sellThreshold ≤ v)) ∧
    (∀ (candles : List Candle) (extraData : ExtraData),
      (extraData.fearGreedHistory = [] ∨ candles = []) →
      (extraData.fearGreedIndex = none ∨ candles = []) →
      s.calculate candles extraData = []) := by
  constructor
  · intro candles v hc
    have heq : s.calculate candles ⟨some v, []⟩ =
        (s._evaluateIndex v ((candles.getLast hc).time)).toList := by
      rw [calc_live_eq s candles ⟨some v, []⟩ hen (by simp)]
      rw [List.getLast?_eq_getLast candles hc]
    refine ⟨heq, ?_, ?_⟩
    · rw [heq]
      cases s._evaluateIndex v ((candles.getLast hc).time) <;> simp
    · rw [heq, FearGreedStrategy._evaluateIndex]
      split_ifs with h1 h2 <;> simp <;> omega
  · intro candles extraData h1 h2
    have hnot : ¬(0 < extraData.fearGreedHistory.length ∧
        0 < candles.length) := by
      rcases h1 with h | h <;> simp [h]
    rw [calc_live_eq s candles extraData hen hnot]
    rcases h2 with h | h
    · rw [h]
    · subst h
      cases extraData.fearGreedIndex <;> rfl

/-- Concrete instantiation of `calculate_live_mode`: with no history, no
scalar value and no candles, `calculate` returns the empty sequence. -/
theorem calculate_live_mode_witness :
    FearGreedStrategy.new.calculate [] ⟨none, []⟩ = [] :=
  (calculate_live_mode FearGreedStrategy.new rfl).2 [] ⟨none, []⟩
    (Or.inl rfl) (Or.inl rfl)

/-- C10: every marker in the sentiment strategy's output carries the time
key of some input candle, a `"buy"`/`"sell"` type, and the strategy's own
id; the constructor sets that id to `"feargreed"`. -/
theorem calculate_output_invariants (s : FearGreedStrategy)
    (candles : List Candle) (extraData : ExtraData) :
    (∀ m ∈ s.calculate candles extraData,
      (∃ c ∈ candles, m.time = c.time) ∧
      (m.type = "buy" ∨ m.type = "sell") ∧
      m.strategyId = s.id) ∧
    FearGreedStrategy.new.id = "feargreed" := by
  refine ⟨?_, rfl⟩
  intro m hm
  by_cases hen : s.enabled = true
  · obtain ⟨idx, hist⟩ := extraData
    by_cases hmode : 0 < hist.length ∧ 0 < candles.length
    · rw [calc_hist_eq s candles idx hist hen hmode.1 hmode.2] at hm
      rw [List.mem_filterMap] at hm
      obtain ⟨fg, _, hfg⟩ := hm
      simp only [] at hfg
      by_cases hct : (candles.map Candle.time).contains
          (epochToDateStr fg.timestamp) = true
      · rw [if_pos hct] at hfg
        obtain ⟨ht, hty, hid⟩ := evaluateIndex_marker hfg
        refine ⟨?_, hty, hid⟩
        have hmem : epochToDateStr fg.timestamp ∈ candles.map Candle.time :=
          by simpa using hct
        obtain ⟨c, hcm, hceq⟩ := List.mem_map.mp hmem
        exact ⟨c, hcm, by rw [ht, hceq]⟩
      · rw [if_neg hct] at hfg
        exact Option.noConfusion hfg
    · rw [calc_live_eq s candles ⟨idx, hist⟩ hen hmode] at hm
      cases idx with
      | none =>
          cases candles.getLast? <;> simp at hm
      | some v =>
          cases hgl : candles.getLast? with
          | none =>
              rw [hgl] at hm
              simp at hm
          | some c =>
              rw [hgl] at hm
              have he : s._evaluateIndex v c.time = some m := by
                simpa using hm
              obtain ⟨ht, hty, hid⟩ := evaluateIndex_marker he
              exact ⟨⟨c, List.mem_of_getLast?_eq_some hgl, by rw [ht]⟩,
                hty, hid⟩
  · have hen' : s.enabled = false := by
      revert hen
      cases s.enabled <;> simp
    rw [FearGreedStrategy.calculate, if_pos hen'] at hm
    simp at hm

/-- Concrete instantiation of `calculate_output_invariants` at the
back-fill test data's emitted marker. -/
theorem calculate_output_invariants_witness :
    (∃ c ∈ exampleCandles,
      (⟨"2024-01-01", "buy", "FG:10", "Extreme Fear", "feargreed"⟩ :
        SignalMarker).time = c.time) ∧
    ((⟨"2024-01-01", "buy", "FG:10", "Extreme Fear", "feargreed"⟩ :
        SignalMarker).type = "buy" ∨
      (⟨"2024-01-01", "buy", "FG:10", "Extreme Fear", "feargreed"⟩ :
        SignalMarker).type = "sell") ∧
    (⟨"2024-01-01", "buy", "FG:10", "Extreme Fear", "feargreed"⟩ :
        SignalMarker).strategyId = FearGreedStrategy.new.id :=
  (calculate_output_invariants FearGreedStrategy.new exampleCandles
      ⟨none, exampleHistory⟩).1
    ⟨"2024-01-01", "buy", "FG:10", "Extreme Fear", "feargreed"⟩ (by decide)

/-- The two possible outcomes of one `seen`-map insertion step: the key
is already present and the map is unchanged, or the marker is appended. -/
theorem dedupStep_cases (seen : List SignalMarker) (x : SignalMarker) :
    ((∃ t ∈ seen, signalKey t = signalKey x) ∧ dedupStep seen x = seen) ∨
    ((∀ t ∈ seen, signalKey t ≠ signalKey x) ∧
      dedupStep seen x = seen ++ [x]) := by
  unfold dedupStep
  by_cases h : seen.any (fun t => signalKey t == signalKey x) = true
  · left
    refine ⟨?_, by rw [if_pos h]⟩
    simpa [List.any_eq_true, beq_iff_eq] using h
  · right
    refine ⟨?_, by rw [if_neg h]⟩
    intro t ht heq
    exact h (List.any_eq_true.mpr ⟨t, ht, beq_iff_eq.mpr heq⟩)

/-- The `seen` fold only ever appends to its accumulator. -/
theorem dedupFold_extends :
    ∀ (l acc : List SignalMarker), ∃ ext, l.foldl dedupStep acc = acc ++ ext
  | [], acc => ⟨[], by simp⟩
  | x :: l, acc => by
      rw [List.foldl_cons]
      rcases dedupStep_cases acc x with ⟨_, he⟩ | ⟨_, he⟩
      · rw [he]
        exact dedupFold_extends l acc
      · rw [he]
        obtain ⟨ext, hext⟩ := dedupFold_extends l (acc ++ [x])
        exact ⟨[x] ++ ext, by rw [hext, List.append_assoc]⟩

/-- Every element of the `seen` fold's result is from the accumulator or
the input. -/
theorem dedupFold_mem :
    ∀ (l acc : List SignalMarker) (m : SignalMarker),
      m ∈ l.foldl dedupStep acc → m ∈ acc ∨ m ∈ l
  | [], _, _ => by simp
  | x :: l, acc, m => by
      rw [List.foldl_cons]
      intro hm
      rcases dedupFold_mem l (dedupStep acc x) m hm with h | h
      · rcases dedupStep_cases acc x with ⟨_, he⟩ | ⟨_, he⟩ <;> rw [he] at h
        · exact Or.inl h
        · rcases List.mem_append.mp h with h' | h'
          · exact Or.inl h'
          · exact Or.inr (List.mem_cons.mpr
              (Or.inl (List.mem_singleton.mp h')))
      · exact Or.inr (List.mem_cons_of_mem x h)

/-- The `seen` fold preserves pairwise-distinct keys. -/
theorem dedupFold_pairwise :
    ∀ (l acc : List SignalMarker),
      acc.Pairwise (fun a b => signalKey a ≠ signalKey b) →
      (l.foldl dedupStep acc).Pairwise
        (fun a b => signalKey a ≠ signalKey b)
  | [], _, h => by simpa using h
  | x :: l, acc, h => by
      rw [List.foldl_cons]
      rcases dedupStep_cases acc x with ⟨_, he⟩ | ⟨hnew, he⟩
      · rw [he]
        exact dedupFold_pairwise l acc h
      · rw [he]
        apply dedupFold_pairwise
        rw [List.pairwise_append]
        refine ⟨h, List.pairwise_singleton _ _, ?_⟩
        intro a ha b hb
        rw [List.mem_singleton.mp hb]
        exact hnew a ha

/-- Every input key is represented in the `seen` fold's result. -/
theorem dedupFold_covers :
    ∀ (l acc : List SignalMarker) (x : SignalMarker),
      x ∈ l → ∃ m ∈ l.foldl dedupStep acc, signalKey m = signalKey x
  | [], _, x => by simp
  | y :: l, acc, x => fun hx => by
      rw [List.foldl_cons]
      rcases List.mem_cons.mp hx with rfl | hx'
      · obtain ⟨ext, hext⟩ := dedupFold_extends l (dedupStep acc x)
        rcases dedupStep_cases acc x with ⟨⟨t, ht, hkey⟩, he⟩ | ⟨_, he⟩
        · refine ⟨t, ?_, hkey⟩
          rw [hext, he]
          exact List.mem_append_left _ ht
        · refine ⟨x, ?_, rfl⟩
          rw [hext, he]
          exact List.mem_append_left _
            (List.mem_append_right _ (List.mem_singleton.mpr rfl))
      · exact dedupFold_covers l (dedupStep acc y) x hx'

/-- A result element not already in the accumulator is key-fresh for the
accumulator and is the **first** input element bearing its key. -/
theorem dedupFold_first :
    ∀ (l acc : List SignalMarker) (m : SignalMarker),
      m ∈ l.foldl dedupStep acc → m ∉ acc →
      (∀ a ∈ acc, signalKey a ≠ signalKey m) ∧
      l.find? (fun x => signalKey x == signalKey m) = some m
  | [], acc, m => by
      intro hm hnm
      rw [List.foldl_nil] at hm
      exact absurd hm hnm
  | y :: l, acc, m => by
      intro hm hnm
      rw [List.foldl_cons] at hm
      by_cases hmem : m ∈ dedupStep acc y
      · rcases dedupStep_cases acc y with ⟨_, he⟩ | ⟨hnew, he⟩
        · rw [he] at hmem
          exact absurd hmem hnm
        · rw [he] at hmem
          rcases List.mem_append.mp hmem with h' | h'
          · exact absurd h' hnm
          · have hm_eq : m = y := List.mem_singleton.mp h'
            subst hm_eq
            refine ⟨hnew, ?_⟩
            rw [List.find?_cons_of_pos _ (by simp)]
      · obtain ⟨hacc', hfind⟩ :=
          dedupFold_first l (dedupStep acc y) m hm hmem
        have hsub : ∀ a ∈ acc, a ∈ dedupStep acc y := by
          intro a ha
          rcases dedupStep_cases acc y with ⟨_, he⟩ | ⟨_, he⟩ <;> rw [he]
          · exact ha
          · exact List.mem_append_left _ ha
        have hky : signalKey y ≠ signalKey m := by
          rcases dedupStep_cases acc y with ⟨⟨t, ht, hkey⟩, he⟩ | ⟨_, he⟩
          · intro hk
            exact hacc' t (hsub t ht) (hkey.trans hk)
          · intro hk
            refine hacc' y ?_ hk
            rw [he]
            exact List.mem_append_right _ (List.mem_singleton.mpr rfl)
        refine ⟨fun a ha => hacc' a (hsub a ha), ?_⟩
        rw [List.find?_cons_of_neg _ (by simp [hky]), hfind]

/-- Behaviour of `_deduplicateSignals`, phrased on the `time-type` string
key of the source: first-encountered marker kept per key, pairwise
distinct keys, every input key represented, and the result sorted by
time descending. -/
theorem deduplicateSignals_spec (signals : List SignalMarker) :
    (∀ m ∈ _deduplicateSignals signals,
      signals.find? (fun x => signalKey x == signalKey m) = some m) ∧
    (_deduplicateSignals signals).Pairwise
      (fun a b => signalKey a ≠ signalKey b) ∧
    (∀ x ∈ signals, ∃ m ∈ _deduplicateSignals signals,
      signalKey m = signalKey x) ∧
    (_deduplicateSignals signals).Pairwise timeDesc := by
  haveI : IsTotal SignalMarker timeDesc := ⟨timeDesc_total⟩
  haveI : IsTrans SignalMarker timeDesc := ⟨timeDesc_trans⟩
  unfold _deduplicateSignals
  have hperm :=
    List.perm_insertionSort timeDesc (signals.foldl dedupStep [])
  refine ⟨?_, ?_, ?_, ?_⟩
  · intro m hm
    exact (dedupFold_first signals [] m (hperm.mem_iff.mp hm) (by simp)).2
  · exact (hperm.pairwise_iff fun hxy e => hxy e.symm).mpr
      (dedupFold_pairwise signals [] (by simp))
  · intro x hx
    obtain ⟨m, hm, hk⟩ := dedupFold_covers signals [] x hx
    exact ⟨m, hperm.mem_iff.mpr hm, hk⟩
  · exact List.sorted_insertionSort timeDesc _

/-- For markers whose `type` is the enum `"buy"`/`"sell"` (the only types
the engine creates), equality of dedup keys is equality of the
`(time, type)` pair. -/
theorem signalKey_pair_iff {a b : SignalMarker}
    (ha : a.type = "buy" ∨ a.type = "sell")
    (hb : b.type = "buy" ∨ b.type = "sell") :
    signalKey a = signalKey b ↔ a.time = b.time ∧ a.type = b.type := by
  constructor
  · intro h
    unfold signalKey at h
    have hd := congrArg String.data h
    simp only [String.data_append] at hd
    rcases ha with ha' | ha' <;> rcases hb with hb' | hb' <;>
      rw [ha', hb'] at hd
    · have h1 := List.append_cancel_right hd
      have h2 := List.append_cancel_right h1
      exact ⟨String.ext h2, ha'.trans hb'.symm⟩
    · exfalso
      have hlast := congrArg List.getLast? hd
      rw [show ("buy" : String).data = ['b', 'u', 'y'] from rfl,
        show ("sell" : String).data = ['s', 'e', 'l', 'l'] from rfl] at hlast
      simp [List.getLast?_append] at hlast
    · exfalso
      have hlast := congrArg List.getLast? hd
      rw [show ("buy" : String).data = ['b', 'u', 'y'] from rfl,
        show ("sell" : String).data = ['s', 'e', 'l', 'l'] from rfl] at hlast
      simp [List.getLast?_append] at hlast
    · have h1 := List.append_cancel_right hd
      have h2 := List.append_cancel_right h1
      exact ⟨String.ext h2, ha'.trans hb'.symm⟩
  · intro hp
    unfold signalKey
    rw [hp.1, hp.2]

/-- The scan `find?` only depends on the predicate's values on the list. -/
theorem find?_congr_on (l : List SignalMarker) (p q : SignalMarker → Bool)
    (h : ∀ x ∈ l, p x = q x) : l.find? p = l.find? q := by
  induction l with
  | nil => rfl
  | cons y l ih =>
      have hy := h y (List.mem_cons_self y l)
      cases hp : p y
      · rw [List.find?_cons_of_neg _ (by simp [hp]),
          List.find?_cons_of_neg _ (by simp [← hy, hp])]
        exact ih fun x hx => h x (List.mem_cons_of_mem y hx)
      · rw [List.find?_cons_of_pos _ hp,
          List.find?_cons_of_pos _ (hy ▸ hp)]

/-- C2: when the aggregator produces an output (non-empty candles), the
output has at most one marker per `(time, type)` pair; for colliding
pairs the first marker in concatenation order (registration order across
strategies, emission order within one) is the one kept; every collected
pair is represented; and the output is sorted by `time` descending under
lexical string comparison.  Markers are assumed to carry the enum types
`"buy"`/`"sell"` of the Signal Marker data model. -/
theorem recalculateSignals_spec (strategies : List Strategy)
    (candles : List Candle) (extraData : ExtraData)
    (out : List SignalMarker)
    (htyped : ∀ m ∈ collectSignals strategies candles extraData,
      m.type = "buy" ∨ m.type = "sell")
    (hout : _recalculateSignals strategies candles extraData = some out) :
    (∀ m ∈ out,
      (collectSignals strategies candles extraData).find?
        (fun x => decide (x.time = m.time ∧ x.type = m.type)) = some m) ∧
    out.Pairwise (fun a b => ¬(a.time = b.time ∧ a.type = b.type)) ∧
    (∀ x ∈ collectSignals strategies candles extraData,
      ∃ m ∈ out, m.time = x.time ∧ m.type = x.type) ∧
    out.Pairwise (fun a b => b.time ≤ a.time) := by
  unfold _recalculateSignals at hout
  split at hout
  · exact Option.noConfusion hout
  · obtain rfl := Option.some.inj hout
    obtain ⟨hfirst, hpairkey, hcover, hsorted⟩ :=
      deduplicateSignals_spec (collectSignals strategies candles extraData)
    have hsub : ∀ m ∈ _deduplicateSignals
        (collectSignals strategies candles extraData),
        m ∈ collectSignals strategies candles extraData := fun m hm =>
      List.mem_of_find?_eq_some (hfirst m hm)
    refine ⟨?_, ?_, ?_, ?_⟩
    · intro m hm
      have hcongr := find?_congr_on
        (collectSignals strategies candles extraData)
        (fun x => signalKey x == signalKey m)
        (fun x => decide (x.time = m.time ∧ x.type = m.type))
        (fun x hx => by
          rw [Bool.eq_iff_iff]
          simp only [beq_iff_eq, decide_eq_true_eq]
          exact signalKey_pair_iff (htyped x hx) (htyped m (hsub m hm)))
      rw [← hcongr]
      exact hfirst m hm
    · refine hpairkey.imp ?_
      intro a b hk hpair
      refine hk ?_
      unfold signalKey
      rw [hpair.1, hpair.2]
    · intro x hx
      obtain ⟨m, hm, hk⟩ := hcover x hx
      exact ⟨m, hm,
        (signalKey_pair_iff (htyped m (hsub m hm)) (htyped x hx)).mp hk⟩
    · refine hsorted.imp ?_
      intro a b h
      exact (strLe_le_iff _ _).mp h

/-- Concrete instantiation of `recalculateSignals_spec` on the two-strategy
fixture: the colliding `(2024-01-01, buy)` pair is represented in the
output by the first strategy's marker. -/
theorem recalculateSignals_spec_witness :
    ∃ m ∈ [(⟨"2024-03-01", "sell", "b", "r", "s1"⟩ : SignalMarker),
           ⟨"2024-01-01", "buy", "a", "r", "s1"⟩],
      m.time = (⟨"2024-01-01", "buy", "c", "r", "s2"⟩ : SignalMarker).time ∧
      m.type = (⟨"2024-01-01", "buy", "c", "r", "s2"⟩ : SignalMarker).type :=
  (recalculateSignals_spec wStrategies wCandles wExtra
      [⟨"2024-03-01", "sell", "b", "r", "s1"⟩,
       ⟨"2024-01-01", "buy", "a", "r", "s1"⟩]
      (by decide) (by decide)).2.2.1
    ⟨"2024-01-01", "buy", "c", "r", "s2"⟩ (by decide)

end CryptoSignal
